import Mathlib

/-!
Verification of the section-tagged sudoers document model from
`sudoers_manager.py`, against its natural-language specification.

Files are modelled as lists of lines (a rule, comment, or sentinel line is
one `String` without a newline character); functions that in the script read
or write a file by path are modelled as pure functions from line lists to
line lists.  Python string primitives `strip`, `startswith` and the `in`
substring test are embedded below as `pyStrip`, `pyStartswith` and `pyIn`.
-/

/-! ## Python string primitives -/

/-- The whitespace characters removed by Python `str.strip()`. -/
def pyIsSpace (c : Char) : Bool :=
  c == ' ' || c == '\t' || c == '\n' || c == '\r' || c == '\x0b' || c == '\x0c'

/-- Python `str.strip()`: drop leading and trailing whitespace. -/
def pyStrip (s : String) : String :=
  ⟨((s.data.dropWhile pyIsSpace).reverse.dropWhile pyIsSpace).reverse⟩

/-- Boolean list-level test that `p` is a leading segment of `l`. -/
def listIsPre : List Char → List Char → Bool
  | [], _ => true
  | _ :: _, [] => false
  | a :: as, b :: bs => a == b && listIsPre as bs

/-- Python `line.startswith(pat)`. -/
def pyStartswith (line pat : String) : Bool :=
  listIsPre pat.data line.data

/-- Boolean list-level test that `sub` occurs contiguously inside `l`. -/
def listIsInf : List Char → List Char → Bool
  | sub, [] => sub.isEmpty
  | sub, l@(_ :: t) => listIsPre sub l || listIsInf sub t

/-- Python `sub in line` (substring containment). -/
def pyIn (sub line : String) : Bool :=
  listIsInf sub.data line.data

/-! ## Section model (`sections` list of the script) -/

/-- The six canonical sudoers sections, in the order of the script's
`sections` list. -/
inductive SectionKind where
  | userAlias
  | runasAlias
  | hostAlias
  | cmndAlias
  | defaults
  | userRule
deriving DecidableEq

/-- Display name of a section, as in the script's `sections` list. -/
def sectionName : SectionKind → String
  | .userAlias => "User_Alias"
  | .runasAlias => "Runas_Alias"
  | .hostAlias => "Host_Alias"
  | .cmndAlias => "Cmnd_Alias"
  | .defaults => "Defaults"
  | .userRule => "User_Rule"

/-- The canonical ordered list of sections. -/
def sections : List SectionKind :=
  [.userAlias, .runasAlias, .hostAlias, .cmndAlias, .defaults, .userRule]

/-- The start sentinel line of a section: `#@start <name>`. -/
def startTag (s : SectionKind) : String := "#@start " ++ sectionName s

/-- The end sentinel line of a section: `#@end <name>`. -/
def endTag (s : SectionKind) : String := "#@end " ++ sectionName s

/-! ## Rules document -/

/-- A rules document: the script's dictionary mapping each section name to
its ordered list of rule lines. -/
structure Rules where
  userAlias : List String
  runasAlias : List String
  hostAlias : List String
  cmndAlias : List String
  defaults : List String
  userRule : List String
deriving DecidableEq

/-- Dictionary lookup `rules[section]`. -/
def Rules.get (r : Rules) : SectionKind → List String
  | .userAlias => r.userAlias
  | .runasAlias => r.runasAlias
  | .hostAlias => r.hostAlias
  | .cmndAlias => r.cmndAlias
  | .defaults => r.defaults
  | .userRule => r.userRule

/-- Dictionary assignment `rules[section] = v`. -/
def Rules.set (r : Rules) (s : SectionKind) (v : List String) : Rules :=
  match s with
  | .userAlias => { r with userAlias := v }
  | .runasAlias => { r with runasAlias := v }
  | .hostAlias => { r with hostAlias := v }
  | .cmndAlias => { r with cmndAlias := v }
  | .defaults => { r with defaults := v }
  | .userRule => { r with userRule := v }

/-- The blank rules dictionary `{section: [] for section in sections}`. -/
def emptyRules : Rules := ⟨[], [], [], [], [], []⟩

/-! ## Template comment blocks

Line-list transcriptions of the `comment_header` and per-section comment
strings of the script.  A leading empty line reflects the leading newline of
each triple-quoted comment block. -/

/-- Lines of `comment_header`. -/
def headerLines : List String :=
  [ "# sudoers file",
    "#",
    "# This file should be edited with the \x27visudo\x27 command as root to ensure there",
    "# are no errors. Seriously, don\x27t break the rules.",
    "#",
    "# All alias names should be in all caps and without spaces.",
    "# Group names must have a percent sign % prepended to them.",
    "# Whitespace can be either tabs or spaces, depending on your preference.",
    "#",
    "# Relevant man pages:",
    "#   sudoers",
    "#   visudo",
    "#   sudo" ]

/-- Lines of the per-section comment block (the script's `comments` dict). -/
def commentLines : SectionKind → List String
  | .userAlias =>
    [ "",
      "##################",
      "## User aliases ##",
      "##################",
      "# Create shorthand names for users and groups. These can be used anywhere in",
      "# this file that a regular username is used.",
      "#",
      "# Format:",
      "#   User_Alias <alias_name> = <user>,<user>,<group>, ...",
      "# Example:",
      "#   User_Alias ADMINS = alice,bob,%staff" ]
  | .runasAlias =>
    [ "",
      "###################",
      "## Runas aliases ##",
      "###################",
      "# Defines a name for user IDs under which sudo-invoked programs will run. The",
      "# default is \x27root\x27.",
      "#",
      "# Aliases defined here can be used in the user rules further down.",
      "#",
      "# Format:",
      "#   Runas_Alias <alias_name> = <user>,<user>,<group>, ...",
      "# Example:",
      "#   Runas_Alias USERS = alice,bob,charlie",
      "#   %admin ALL = (USERS) ALL",
      "#",
      "#   The above example would allow all users in the %admin group to execute all",
      "#   commands as any of the users in the USERS runas alias." ]
  | .hostAlias =>
    [ "",
      "##################",
      "## Host aliases ##",
      "##################",
      "# Shorthand names for other hosts on which commands can be run. To use this",
      "# really requires the use of rsh or other remote execution commands, as a host",
      "# alias can prevent remote users from executing sudo.",
      "#",
      "# This is also helpful if you manage many machines. You can define rules for",
      "# specific machines and then those rules will only take effect if the user is",
      "# on one of those machines.",
      "#",
      "# Format:",
      "#   Host_Alias <alias_name> = <host\x27s fully-qualified domain name or short name>",
      "# Example:",
      "#   Host_Alias STAFF = 192.168.1.10,192.168.1.11,alice-computer.staff.school.edu" ]
  | .cmndAlias =>
    [ "",
      "#####################",
      "## Command aliases ##",
      "#####################",
      "# Defines shorthand names for various commands. They may contain parameters",
      "# (although they may need to be escaped). Multiple commands can be assigned to",
      "# a single alias, separated by commas. You can use a backslash \\ to continue",
      "# onto additional lines.",
      "#",
      "# Format:",
      "#   Cmnd_Alias <alias_name> = <command> <arguments>,<command> <arguments>",
      "# Example:",
      "#   Cmnd_Alias SHELLS = /bin/sh, /bin/bash, /bin/csh, /bin/tcsh, /bin/zsh" ]
  | .defaults =>
    [ "",
      "#######################",
      "## Default overrides ##",
      "#######################",
      "# The sudoers file allows for many different options to be specified. Check out",
      "# the sudoers man page, and in particular look in the subsections for both",
      "#   \x27Defaults\x27 and \x27SUDOERS OPTIONS\x27." ]
  | .userRule =>
    [ "",
      "##########################",
      "## User and group rules ##",
      "##########################",
      "# Defines who can do what. If a runas alias is not specified, \x27root\x27 is assumed.",
      "#",
      "# Format:",
      "#   <user|group> <host> = (<runas>) <command>",
      "# Examples:",
      "#   alice ALL    = (root) /full/path/to/command with arguments",
      "#   %admin ALL   = (root) ALL",
      "#   ADMINS STAFF = (USERS) SHELLS" ]

/-- One section block of the template: comment block, start sentinel, the
rules of the section, end sentinel. -/
def sectionBlock (r : Rules) (s : SectionKind) : List String :=
  commentLines s ++ startTag s :: r.get s ++ [endTag s]

/-- The script's `build_clean_from_template`, as the line list it writes:
header followed by each section's block in canonical order. -/
def build_clean_from_template (r : Rules) : List String :=
  headerLines ++ sections.flatMap (sectionBlock r)

/-! ## Conforming reader (`get_rules_from_file`)

The script walks an index through the line list; `lines[index]` past the end
raises `IndexError`.  The model consumes the list structurally and returns
`none` where the script would raise. -/

/-- Forward scan for the first line starting with `#@start <sec>`; returns
the remaining lines after it (the script then does `index += 1`). -/
def scanStart (sec : String) : List String → Option (List String)
  | [] => none
  | l :: ls =>
    if pyStartswith l ("#@start " ++ sec) then some ls else scanStart sec ls

/-- Collect rule lines until a line starting with `#@end <sec>`; non-empty
lines that do not strip to a `#` comment are appended.  Returns the rules
and the remaining lines, still headed by the end-sentinel line (the script
leaves `index` pointing at it). -/
def collectRules (sec : String) (acc : List String) :
    List String → Option (List String × List String)
  | [] => none
  | l :: ls =>
    if pyStartswith l ("#@end " ++ sec) then some (acc, l :: ls)
    else if !(l == "") && !(pyStartswith (pyStrip l) "#") then
      collectRules sec (acc ++ [l]) ls
    else
      collectRules sec acc ls

/-- Read one section: find its start sentinel, then collect to its end. -/
def readSection (sec : String) (lines : List String) :
    Option (List String × List String) :=
  match scanStart sec lines with
  | none => none
  | some rest => collectRules sec [] rest

/-- Loop of `get_rules_from_file` over the section list. -/
def getRulesLoop : List SectionKind → List String → Rules → Option Rules
  | [], _, r => some r
  | s :: ss, lines, r =>
    match readSection (sectionName s) lines with
    | none => none
    | some (rs, rest) => getRulesLoop ss rest (r.set s rs)

/-- The script's `get_rules_from_file` on the file's lines; `none` models
the `IndexError` raised when a sentinel is missing. -/
def get_rules_from_file (lines : List String) : Option Rules :=
  getRulesLoop sections lines emptyRules

/-! ## Non-conforming reader (`get_rules_from_nonconforming_file`) -/

/-- Classify one raw rule line: first section whose name is a literal
leading segment of the stripped line wins, otherwise `User_Rule`. -/
def classifyLine (rule : String) : SectionKind :=
  match sections.find? (fun s => pyStartswith (pyStrip rule) (sectionName s)) with
  | some s => s
  | none => .userRule

/-- The script's `get_rules_from_nonconforming_file`: keep non-blank,
non-comment lines and file each raw line under its classified section. -/
def get_rules_from_nonconforming_file (lines : List String) : Rules :=
  let raw := lines.filter (fun l => !(l == "") && !(pyStartswith (pyStrip l) "#"))
  raw.foldl (fun acc rule =>
    acc.set (classifyLine rule) (acc.get (classifyLine rule) ++ [rule])) emptyRules

/-! ## Validator (`validate`) -/

/-- Per-section recorded sentinel line indices: `(start, end)`. -/
def Tags : Type := SectionKind → Option Nat × Option Nat

/-- The initial `{section: (None, None)}` dictionary. -/
def initTags : Tags := fun _ => (none, none)

/-- Record a start index for section `s`. -/
def Tags.setStart (s : SectionKind) (i : Nat) (t : Tags) : Tags :=
  fun x => if x = s then (some i, (t x).2) else t x

/-- Record an end index for section `s`. -/
def Tags.setEnd (s : SectionKind) (i : Nat) (t : Tags) : Tags :=
  fun x => if x = s then ((t x).1, some i) else t x

/-- The validator's inner loop over sections for one line: whole-line
equality against each sentinel, first match records and breaks. -/
def updateTags (l : String) (i : Nat) : List SectionKind → Tags → Tags
  | [], t => t
  | s :: ss, t =>
    if l = startTag s then Tags.setStart s i t
    else if l = endTag s then Tags.setEnd s i t
    else updateTags l i ss t

/-- The validator's scan over all lines, tracking the line index. -/
def tagScan : List String → Nat → Tags → Tags
  | [], _, t => t
  | l :: ls, i, t => tagScan ls (i + 1) (updateTags l i sections t)

/-- Sentinel indices recorded by `validate` for a line list. -/
def tagsOf (lines : List String) : Tags := tagScan lines 0 initTags

/-- Every section has both a recorded start and end index. -/
def allTags (t : Tags) : Bool :=
  sections.all (fun s => (t s).1.isSome && (t s).2.isSome)

/-- The validator's ordering pass: walking sections in order with the
previous end index, flag a start at or before a non-zero previous end, and
an end at or before its own start.  All violations are conjoined. -/
def checkOrder (t : Tags) : List SectionKind → Nat → Bool
  | [], _ => true
  | s :: ss, prev =>
    (!(decide ((t s).1.getD 0 ≤ prev) && decide (prev ≠ 0))) &&
    (!(decide ((t s).2.getD 0 ≤ (t s).1.getD 0))) &&
    checkOrder t ss ((t s).2.getD 0)

/-- The script's `validate` on the file's lines. -/
def validate (lines : List String) : Bool :=
  allTags (tagsOf lines) && checkOrder (tagsOf lines) sections 0

/-! ## Writer (`write_rules`)

The script rewrites the file in place with a single forward index.  A line
that strips to a `#` comment or to blank is copied; a line containing the
substring `#@start <sec>` additionally triggers emission of the section's
rules; a line containing `#@end <sec>` finishes the section.  Other lines
(old rule payload) are discarded.  `none` models the `IndexError` raised
when a section's end is never found; lines remaining after the last section
are never visited. -/

/-- The writer's copy test: the line strips to a comment or to blank. -/
def keepLine (l : String) : Bool :=
  pyStartswith (pyStrip l) "#" || pyStrip l == ""

/-- Process lines for one section of `write_rules`, producing the emitted
lines and the lines remaining after the section's end line. -/
def writeSection (sec : String) (rs : List String) :
    List String → Option (List String × List String)
  | [] => none
  | l :: ls =>
    if pyIn ("#@start " ++ sec) l then
      match writeSection sec rs ls with
      | none => none
      | some (out, rest) =>
        some ((if keepLine l then [l] else []) ++ rs ++ out, rest)
    else if pyIn ("#@end " ++ sec) l then
      some ((if keepLine l then [l] else []), ls)
    else
      match writeSection sec rs ls with
      | none => none
      | some (out, rest) => some ((if keepLine l then [l] else []) ++ out, rest)

/-- Loop of `write_rules` over the section list; the written output is the
concatenation of the per-section emissions. -/
def writeLoop (r : Rules) : List SectionKind → List String → Option (List String)
  | [], _ => some []
  | s :: ss, lines =>
    match writeSection (sectionName s) (r.get s) lines with
    | none => none
    | some (out, rest) =>
      match writeLoop r ss rest with
      | none => none
      | some out2 => some (out ++ out2)

/-- The script's `write_rules`: the lines written back to the file, given
the rules dictionary and the file's current lines. -/
def write_rules (r : Rules) (lines : List String) : Option (List String) :=
  writeLoop r sections lines

/-! ## Rule addition, deduplication, deletion, tail sorting

These model the merge passes of the script's `__main__` block. -/

/-- Accumulator loop behind `OrderedDict.fromkeys`: keep each string the
first time it is seen, in order. -/
def dedupGo : List String → List String → List String
  | acc, [] => acc
  | acc, x :: xs => dedupGo (if x ∈ acc then acc else acc ++ [x]) xs

/-- The script's duplicate removal
`list(collections.OrderedDict.fromkeys(rules_list))`. -/
def pyDedup (l : List String) : List String := dedupGo [] l

/-- Modelled from the spec: first-occurrence deduplication as §4.4 states
it — the first time a literal string appears is its position; later
duplicates are dropped.  Used to compare `pyDedup` with the spec's words. -/
def pyDedupF : List String → List String
  | [] => []
  | x :: xs => x :: pyDedupF (xs.filter (fun y => decide (y ≠ x)))
termination_by l => l.length
decreasing_by
  exact Nat.lt_succ_of_le (List.length_filter_le _ _)

/-- Classification of a stripped command-line rule: first section whose
name is a literal leading segment wins, otherwise `User_Rule`. -/
def classifyAdded (rule : String) : SectionKind :=
  match sections.find? (fun s => pyStartswith rule (sectionName s)) with
  | some s => s
  | none => .userRule

/-- The `__main__` rule-addition pass: strip each added rule and append it
to its classified section. -/
def addRules (r : Rules) (added : List String) : Rules :=
  added.foldl (fun acc raw =>
    acc.set (classifyAdded (pyStrip raw))
      (acc.get (classifyAdded (pyStrip raw)) ++ [pyStrip raw])) r

/-- The `__main__` deduplication pass, applied to every section. -/
def dedupAll (r : Rules) : Rules :=
  ⟨pyDedup r.userAlias, pyDedup r.runasAlias, pyDedup r.hostAlias,
   pyDedup r.cmndAlias, pyDedup r.defaults, pyDedup r.userRule⟩

/-- One deletion request of the `__main__` deletion pass: every section
containing the raw request string is rebuilt without it. -/
def deleteOne (d : String) (r : Rules) : Rules :=
  sections.foldl (fun acc s =>
    if d ∈ acc.get s then
      acc.set s ((acc.get s).filter (fun x => decide (x ≠ d)))
    else acc) r

/-- The full deletion pass over all requested deletions. -/
def deletePass (r : Rules) (dels : List String) : Rules :=
  dels.foldl (fun acc d => deleteOne d acc) r

/-- Python `list.insert(pos, x)` (clamping past the end). -/
def pyInsert : Nat → String → List String → List String
  | 0, x, l => x :: l
  | _ + 1, x, [] => [x]
  | n + 1, x, a :: l => a :: pyInsert n x l

/-- The `__main__` tail-sort loop: rules satisfying `p` are appended at the
end, the others are inserted just before the tail block, both in original
relative order. -/
def tailSortGo (p : String → Bool) : List String → List String → Nat → List String
  | [], acc, _ => acc
  | r :: rs, acc, cnt =>
    if p r then tailSortGo p rs (acc ++ [r]) (cnt + 1)
    else tailSortGo p rs (pyInsert (acc.length - cnt) r acc) cnt

/-- Predicate of the Defaults tail sort: the stripped rule starts with
`Defaults:`. -/
def isDefaultsColon (r : String) : Bool := pyStartswith (pyStrip r) "Defaults:"

/-- Predicate of the User_Rule tail sort: the stripped rule starts with
`ALL`. -/
def isAllRule (r : String) : Bool := pyStartswith (pyStrip r) "ALL"

/-- The `__main__` reordering of the Defaults section. -/
def defaultsTailSort (rs : List String) : List String :=
  tailSortGo isDefaultsColon rs [] 0

/-- The `__main__` reordering of the User_Rule section. -/
def userRuleTailSort (rs : List String) : List String :=
  tailSortGo isAllRule rs [] 0

/-! ## Commit pipeline (`commit`, `backup`, `timestamp`)

The file system visible to `commit` is abstracted to the live sudoers file,
the candidate file, the two backup locations, and the candidate's
permission and ownership bits; the external `visudo` checker is an oracle
boolean, and the wall-clock timestamp line a string parameter. -/

/-- The script's `timestamp` rewrite on a file's lines: every line whose
strip starts with `#@timestamp` is replaced by the fresh stamp line; if
none exists the stamp is appended at the end. -/
def timestamp (stamp : String) (lines : List String) : List String :=
  if lines.any (fun l => pyStartswith (pyStrip l) "#@timestamp") then
    lines.map (fun l =>
      if pyStartswith (pyStrip l) "#@timestamp" then stamp else l)
  else lines ++ [stamp]

/-- Abstract file-system state seen by the commit pipeline. -/
structure SudoFS where
  live : Option (List String)
  candidate : List String
  candPresent : Bool
  candPerms : Option (Nat × Nat × Nat)
  backupOriginal : Option (List String)
  backupRotating : Option (List String)
deriving DecidableEq

/-- The script's `backup`: copy the live contents to `.original` once,
afterwards to the rotating `.backup`. -/
def backupStep (fs : SudoFS) (contents : List String) : SudoFS :=
  if fs.backupOriginal = none then { fs with backupOriginal := some contents }
  else { fs with backupRotating := some contents }

/-- The script's `commit`: validate, verify, back up an existing live file,
harden the candidate (mode 0440, owner 0:0), move it over the live path,
and timestamp.  Returns the resulting state and the exit status, `none`
meaning normal completion. -/
def commit (verifyOk : Bool) (stamp : String) (fs : SudoFS) :
    SudoFS × Option Nat :=
  if validate fs.candidate = false then (fs, some 4)
  else if verifyOk = false then (fs, some 4)
  else
    let fs1 := match fs.live with
      | some contents => backupStep fs contents
      | none => fs
    let fs2 := { fs1 with candPerms := some (0o440, 0, 0) }
    let fs3 := { fs2 with
      live := some (timestamp stamp fs2.candidate),
      candPresent := false }
    (fs3, none)

/-! ## Basic lemmas about the string primitives -/

lemma listIsPre_refl : ∀ l : List Char, listIsPre l l = true := by
  intro l
  induction l with
  | nil => rfl
  | cons a l ih => simp [listIsPre, ih]

lemma listIsPre_append_right : ∀ a b : List Char, listIsPre a (a ++ b) = true := by
  intro a
  induction a with
  | nil => intro b; rfl
  | cons c a ih => intro b; simp [listIsPre, ih]

lemma listIsPre_trans : ∀ p q r : List Char,
    listIsPre p q = true → listIsPre q r = true → listIsPre p r = true := by
  intro p
  induction p with
  | nil => intro q r _ _; rfl
  | cons a p ih =>
    intro q r hpq hqr
    match q, hpq with
    | b :: q, hpq =>
      simp only [listIsPre, Bool.and_eq_true, beq_iff_eq] at hpq
      match r, hqr with
      | c :: r, hqr =>
        simp only [listIsPre, Bool.and_eq_true, beq_iff_eq] at hqr
        simp only [listIsPre, Bool.and_eq_true, beq_iff_eq]
        exact ⟨hpq.1.trans hqr.1, ih q r hpq.2 hqr.2⟩

lemma pyStartswith_self (s : String) : pyStartswith s s = true :=
  listIsPre_refl s.data

lemma pyStartswith_append_right (s t : String) : pyStartswith (s ++ t) s = true := by
  simp only [pyStartswith, String.data_append]
  exact listIsPre_append_right s.data t.data

lemma listIsPre_exists_suffix : ∀ p l : List Char,
    listIsPre p l = true → ∃ r, l = p ++ r := by
  intro p
  induction p with
  | nil => intro l _; exact ⟨l, rfl⟩
  | cons a p ih =>
    intro l h
    match l, h with
    | b :: l, h =>
      simp only [listIsPre, Bool.and_eq_true, beq_iff_eq] at h
      obtain ⟨r, hr⟩ := ih l h.2
      exact ⟨r, by simp [h.1, hr]⟩

/-- Any line starting with a string that itself starts with `#` starts with
`#`: used to rule rule lines out of sentinel matches. -/
lemma pyStartswith_trans (l t u : String) (h1 : pyStartswith l t = true)
    (h2 : pyStartswith t u = true) : pyStartswith l u = true :=
  listIsPre_trans u.data t.data l.data h2 h1

lemma listIsInf_refl (l : List Char) : listIsInf l l = true := by
  cases l with
  | nil => rfl
  | cons a t => simp [listIsInf, listIsPre_refl]

lemma pyIn_refl (s : String) : pyIn s s = true := listIsInf_refl s.data

/-- A string extended on the right is never equal to a string of which the
base is not a leading segment. -/
lemma append_ne_of_not_pre (t u : String) (r : List Char)
    (h : listIsPre t.data u.data = false) : String.mk (t.data ++ r) ≠ u := by
  intro he
  have hd : t.data ++ r = u.data := congrArg String.data he
  have : listIsPre t.data u.data = true := by
    rw [← hd]; exact listIsPre_append_right t.data r
  rw [h] at this
  exact Bool.false_ne_true this

/-- A string properly extended on the right is never equal to itself. -/
lemma append_ne_self (t : String) (r : List Char) (hr : r ≠ []) :
    String.mk (t.data ++ r) ≠ t := by
  intro he
  have hd : t.data ++ r = t.data := congrArg String.data he
  have := congrArg List.length hd
  simp at this
  exact hr this

/-! ## Claim C5: stability of the tail sort -/

lemma pyInsert_at_boundary : ∀ (nm mt : List String) (x : String),
    pyInsert nm.length x (nm ++ mt) = nm ++ x :: mt := by
  intro nm
  induction nm with
  | nil => intro mt x; rfl
  | cons a l ih =>
    intro mt x
    simpa [pyInsert] using ih mt x

lemma tailSortGo_spec (p : String → Bool) : ∀ (rs nm mt : List String),
    tailSortGo p rs (nm ++ mt) mt.length =
      nm ++ rs.filter (fun r => !p r) ++ mt ++ rs.filter p := by
  intro rs
  induction rs with
  | nil => intro nm mt; simp [tailSortGo]
  | cons r rs ih =>
    intro nm mt
    by_cases hp : p r
    · rw [show tailSortGo p (r :: rs) (nm ++ mt) mt.length =
          tailSortGo p rs ((nm ++ mt) ++ [r]) (mt.length + 1) by simp [tailSortGo, hp]]
      have h1 : (nm ++ mt) ++ [r] = nm ++ (mt ++ [r]) := by simp
      have h2 : mt.length + 1 = (mt ++ [r]).length := by simp
      rw [h1, h2, ih nm (mt ++ [r])]
      simp [List.filter_cons, hp]
    · rw [show tailSortGo p (r :: rs) (nm ++ mt) mt.length =
          tailSortGo p rs (pyInsert ((nm ++ mt).length - mt.length) r (nm ++ mt))
            mt.length by simp [tailSortGo, hp]]
      have h1 : (nm ++ mt).length - mt.length = nm.length := by simp
      rw [h1, pyInsert_at_boundary,
        show nm ++ r :: mt = (nm ++ [r]) ++ mt by simp, ih (nm ++ [r]) mt]
      simp [List.filter_cons, hp]

/-- Claim C5: the merge pass's tail sort is stable — for the Defaults
section the rules whose stripped text starts with `Defaults:` move to the
tail in original relative order, the rest stay in front in original
relative order, and analogously for the User_Rule section with `ALL`; in
particular on the spec's concrete Defaults scenario. -/
theorem tail_sort_stable :
    (∀ rs, defaultsTailSort rs =
      rs.filter (fun r => !isDefaultsColon r) ++ rs.filter isDefaultsColon) ∧
    (∀ rs, userRuleTailSort rs =
      rs.filter (fun r => !isAllRule r) ++ rs.filter isAllRule) ∧
    defaultsTailSort
      ["Defaults env_reset", "Defaults:alice timestamp_timeout=5",
       "Defaults mail_badpass"] =
      ["Defaults env_reset", "Defaults mail_badpass",
       "Defaults:alice timestamp_timeout=5"] := by
  refine ⟨fun rs => ?_, fun rs => ?_, by decide⟩
  · have := tailSortGo_spec isDefaultsColon rs [] []
    simpa [defaultsTailSort] using this
  · have := tailSortGo_spec isAllRule rs [] []
    simpa [userRuleTailSort] using this

/-! ## Rules dictionary lemmas -/

lemma Rules.get_set (r : Rules) (s s' : SectionKind) (v : List String) :
    (r.set s v).get s' = if s' = s then v else r.get s' := by
  cases s <;> cases s' <;> simp [Rules.set, Rules.get]

lemma Rules.ext_get (a b : Rules) (h : ∀ s, a.get s = b.get s) : a = b := by
  cases a
  cases b
  simp only [Rules.mk.injEq]
  exact ⟨h .userAlias, h .runasAlias, h .hostAlias, h .cmndAlias,
    h .defaults, h .userRule⟩

/-! ## Claim C9: idempotence of rule addition with deduplication -/

lemma dedupGo_append : ∀ (l₁ l₂ acc : List String),
    dedupGo acc (l₁ ++ l₂) = dedupGo (dedupGo acc l₁) l₂ := by
  intro l₁
  induction l₁ with
  | nil => intro l₂ acc; rfl
  | cons x l₁ ih => intro l₂ acc; simp [dedupGo, ih]

lemma mem_dedupGo : ∀ (l acc : List String) (x : String),
    x ∈ acc ∨ x ∈ l → x ∈ dedupGo acc l := by
  intro l
  induction l with
  | nil =>
    intro acc x h
    simpa [dedupGo] using h.resolve_right (by simp)
  | cons y l ih =>
    intro acc x h
    rw [show dedupGo acc (y :: l) =
      dedupGo (if y ∈ acc then acc else acc ++ [y]) l from rfl]
    rcases h with h | h
    · exact ih _ x (Or.inl (by split <;> simp [h]))
    · rcases List.mem_cons.mp h with rfl | h
      · exact ih _ x (Or.inl (by split <;> simp_all))
      · exact ih _ x (Or.inr h)

lemma dedupGo_absorb : ∀ (l acc : List String),
    (∀ x ∈ l, x ∈ acc) → dedupGo acc l = acc := by
  intro l
  induction l with
  | nil => intro acc _; rfl
  | cons y l ih =>
    intro acc h
    rw [show dedupGo acc (y :: l) =
      dedupGo (if y ∈ acc then acc else acc ++ [y]) l from rfl]
    rw [if_pos (h y (by simp))]
    exact ih acc (fun x hx => h x (by simp [hx]))

lemma dedupGo_eq_F : ∀ (l acc : List String),
    dedupGo acc l = acc ++ pyDedupF (l.filter (fun y => decide (y ∉ acc))) := by
  intro l
  induction l with
  | nil => intro acc; simp [dedupGo, pyDedupF]
  | cons x xs ih =>
    intro acc
    by_cases hx : x ∈ acc
    · rw [show dedupGo acc (x :: xs) =
        dedupGo (if x ∈ acc then acc else acc ++ [x]) xs from rfl, if_pos hx]
      rw [List.filter_cons_of_neg (by simp [hx]), ih]
    · rw [show dedupGo acc (x :: xs) =
        dedupGo (if x ∈ acc then acc else acc ++ [x]) xs from rfl, if_neg hx]
      rw [List.filter_cons_of_pos (by simp [hx]), ih]
      have hfil : xs.filter (fun y => decide (y ∉ acc ++ [x])) =
          (xs.filter (fun y => decide (y ∉ acc))).filter (fun y => decide (y ≠ x)) := by
        rw [List.filter_filter]
        exact List.filter_congr (fun a _ => by
          by_cases h1 : a = x <;> by_cases h2 : a ∈ acc <;> simp [h1, h2])
      rw [hfil]
      simp [pyDedupF]

lemma pyDedup_eq_F (l : List String) : pyDedup l = pyDedupF l := by
  rw [pyDedup, dedupGo_eq_F]
  simp

lemma addRules_get : ∀ (L : List String) (R : Rules) (s : SectionKind),
    (addRules R L).get s =
      R.get s ++ (L.map pyStrip).filter (fun r => classifyAdded r == s) := by
  intro L
  induction L with
  | nil => intro R s; simp [addRules]
  | cons raw L ih =>
    intro R s
    rw [show addRules R (raw :: L) =
      addRules (R.set (classifyAdded (pyStrip raw))
        (R.get (classifyAdded (pyStrip raw)) ++ [pyStrip raw])) L from rfl]
    rw [ih, Rules.get_set]
    by_cases hc : classifyAdded (pyStrip raw) = s
    · subst hc
      rw [if_pos rfl, List.map_cons, List.filter_cons_of_pos (by simp)]
      simp
    · rw [if_neg (fun h => hc h.symm)]
      rw [List.map_cons, List.filter_cons_of_neg (by simp [hc])]

lemma pyDedup_absorb_dup (A C : List String) :
    pyDedup ((A ++ C) ++ C) = pyDedup (A ++ C) := by
  rw [pyDedup, pyDedup, dedupGo_append]
  exact dedupGo_absorb C (dedupGo [] (A ++ C))
    (fun x hx => mem_dedupGo (A ++ C) [] x (Or.inr (by simp [hx])))

lemma dedupAll_get (r : Rules) (s : SectionKind) :
    (dedupAll r).get s = pyDedup (r.get s) := by
  cases s <;> rfl

/-- Claim C9: classifying and appending the same added rules twice and then
deduplicating yields the same per-section rule lists as appending them once
and deduplicating; and the deduplication pass keeps the first occurrence of
each literal string in order, dropping later duplicates. -/
theorem add_rules_idempotent :
    (∀ (R : Rules) (L : List String),
      dedupAll (addRules (addRules R L) L) = dedupAll (addRules R L)) ∧
    (∀ l, pyDedup l = pyDedupF l) := by
  refine ⟨fun R L => ?_, pyDedup_eq_F⟩
  apply Rules.ext_get
  intro s
  rw [dedupAll_get, dedupAll_get, addRules_get, addRules_get]
  exact pyDedup_absorb_dup (R.get s) _

/-! ## Claim C8: deletion is an exact-match, soft operation -/

lemma deleteFold_get : ∀ (secs : List SectionKind) (acc : Rules) (d : String)
    (s : SectionKind), secs.Nodup →
    (secs.foldl (fun acc s =>
      if d ∈ acc.get s then
        acc.set s ((acc.get s).filter (fun x => decide (x ≠ d)))
      else acc) acc).get s =
      if s ∈ secs then (acc.get s).filter (fun x => decide (x ≠ d))
      else acc.get s := by
  intro secs
  induction secs with
  | nil => intro acc d s _; simp
  | cons s' secs ih =>
    intro acc d s hnd
    rw [List.foldl_cons]
    have hacc' : ∀ s'' : SectionKind,
        (if d ∈ acc.get s' then
          acc.set s' ((acc.get s').filter (fun x => decide (x ≠ d)))
        else acc).get s'' =
        if s'' = s' then (acc.get s').filter (fun x => decide (x ≠ d))
        else acc.get s'' := by
      intro s''
      by_cases hd : d ∈ acc.get s'
      · rw [if_pos hd, Rules.get_set]
      · rw [if_neg hd]
        by_cases hs : s'' = s'
        · subst hs
          rw [if_pos rfl, List.filter_eq_self.mpr
            (fun x hx => by simp; exact fun h => hd (h ▸ hx))]
        · rw [if_neg hs]
    rw [ih _ d s (List.nodup_cons.mp hnd).2]
    by_cases hs : s = s'
    · subst hs
      have hns : s ∉ secs := (List.nodup_cons.mp hnd).1
      rw [if_neg hns, hacc' s, if_pos rfl, if_pos (by simp)]
    · rw [hacc' s, if_neg hs]
      by_cases hmem : s ∈ secs
      · rw [if_pos hmem, if_pos (by simp [hmem])]
      · rw [if_neg hmem, if_neg (by simp [hs, hmem])]

lemma mem_sections (s : SectionKind) : s ∈ sections := by
  cases s <;> simp [sections]

lemma sections_nodup : sections.Nodup := by decide

/-- Claim C8 (amended): the deletion pass removes from every section exactly
the rules equal to the raw requested string — no trimming is applied to the
request — and when no section contains the request every section is left
unchanged, with no error. -/
theorem delete_exact_match :
    (∀ (R : Rules) (d : String) (s : SectionKind),
      (deletePass R [d]).get s = (R.get s).filter (fun x => decide (x ≠ d))) ∧
    (∀ (R : Rules) (d : String), (∀ s, d ∉ R.get s) → deletePass R [d] = R) := by
  have hsingle : ∀ (R : Rules) (d : String), deletePass R [d] = deleteOne d R := by
    intro R d
    unfold deletePass
    rw [List.foldl_cons, List.foldl_nil]
  have hone : ∀ (R : Rules) (d : String) (s : SectionKind),
      (deletePass R [d]).get s = (R.get s).filter (fun x => decide (x ≠ d)) := by
    intro R d s
    have h := deleteFold_get sections R d s sections_nodup
    rw [if_pos (mem_sections s)] at h
    rw [hsingle]
    exact h
  refine ⟨hone, fun R d hd => ?_⟩
  apply Rules.ext_get
  intro s
  rw [hone R d s]
  exact List.filter_eq_self.mpr (fun x hx => by
    simp
    exact fun h => (hd s) (h ▸ hx))

/-- Witness for `delete_exact_match`: deleting from the empty document is a
no-op. -/
theorem delete_exact_match_witness : deletePass emptyRules ["x"] = emptyRules :=
  delete_exact_match.2 emptyRules "x" (fun s => by cases s <;> decide)

/-- Counterexample to claim C8 as stated: a request whose trimmed text
equals a stored rule's trimmed text is not removed, because the deletion
pass compares the raw request string with no trimming. -/
theorem delete_trim_counterexample :
    deletePass ⟨[], [], [], [], [], ["alice ALL"]⟩ ["alice ALL "] =
      ⟨[], [], [], [], [], ["alice ALL"]⟩ ∧
    pyStrip "alice ALL " = pyStrip "alice ALL" ∧
    "alice ALL" ∈ (Rules.get ⟨[], [], [], [], [], ["alice ALL"]⟩ .userRule) := by
  decide

/-! ## Claim C6: commit aborts before mutating on validation failure -/

/-- Claim C6: if the validator or the external verifier rejects the
candidate, `commit` stops with exit status 4 and the file-system state is
returned untouched — no backup, permission change, or move happens, the
live file keeps its contents and the candidate stays in place; conversely
the live file changes only on the fully successful path, where it receives
exactly the moved (and then timestamped) candidate contents. -/
theorem commit_atomic :
    (∀ (fs : SudoFS) (v : Bool) (stamp : String),
      validate fs.candidate = false ∨ v = false →
      commit v stamp fs = (fs, some 4)) ∧
    (∀ (fs : SudoFS) (v : Bool) (stamp : String),
      (commit v stamp fs).1.live ≠ fs.live →
      validate fs.candidate = true ∧ v = true ∧ (commit v stamp fs).2 = none ∧
        (commit v stamp fs).1.live = some (timestamp stamp fs.candidate)) := by
  constructor
  · intro fs v stamp h
    by_cases h1 : validate fs.candidate = false
    · simp [commit, h1]
    · rcases h with h | h
      · exact absurd h h1
      · simp [commit, h1, h]
  · intro fs v stamp hne
    by_cases h1 : validate fs.candidate = false
    · exact absurd (by simp [commit, h1]) hne
    · by_cases h2 : v = false
      · exact absurd (by simp [commit, h1, h2]) hne
      · have h1' : validate fs.candidate = true := by
          revert h1; cases validate fs.candidate <;> simp
        have h2' : v = true := by revert h2; cases v <;> simp
        refine ⟨h1', h2', ?_, ?_⟩
        · simp [commit, h1, h2]
        · cases hl : fs.live <;> simp [commit, h1, h2, hl, backupStep] <;>
            split <;> simp

/-- Witness for `commit_atomic`: an invalid empty candidate aborts with
status 4 and leaves the state untouched. -/
theorem commit_atomic_witness :
    commit true "stamp" ⟨none, [], true, none, none, none⟩ =
      (⟨none, [], true, none, none, none⟩, some 4) :=
  commit_atomic.1 ⟨none, [], true, none, none, none⟩ true "stamp"
    (Or.inl (by decide))

/-! ## Validator lemmas (claims C2, C3, C10) -/

lemma updateTags_skip : ∀ (secs : List SectionKind) (l : String) (i : Nat)
    (t : Tags), (∀ s' ∈ secs, l ≠ startTag s' ∧ l ≠ endTag s') →
    updateTags l i secs t = t := by
  intro secs
  induction secs with
  | nil => intro l i t _; rfl
  | cons s' secs ih =>
    intro l i t h
    have hs := h s' (by simp)
    simp only [updateTags]
    rw [if_neg hs.1, if_neg hs.2]
    exact ih l i t (fun s hmem => h s (by simp [hmem]))

lemma updateTags_keep_start : ∀ (secs : List SectionKind) (l : String) (i : Nat)
    (t : Tags) (s : SectionKind), l ≠ startTag s →
    ((updateTags l i secs t) s).1 = (t s).1 := by
  intro secs
  induction secs with
  | nil => intro l i t s _; rfl
  | cons s' secs ih =>
    intro l i t s hne
    simp only [updateTags]
    by_cases h1 : l = startTag s'
    · rw [if_pos h1]
      have hss : s ≠ s' := fun he => hne (he ▸ h1)
      show (if s = s' then (some i, (t s).2) else t s).1 = (t s).1
      rw [if_neg hss]
    · rw [if_neg h1]
      by_cases h2 : l = endTag s'
      · rw [if_pos h2]
        show (if s = s' then ((t s).1, some i) else t s).1 = (t s).1
        split <;> rfl
      · rw [if_neg h2]
        exact ih l i t s hne

lemma updateTags_keep_end : ∀ (secs : List SectionKind) (l : String) (i : Nat)
    (t : Tags) (s : SectionKind), l ≠ endTag s →
    ((updateTags l i secs t) s).2 = (t s).2 := by
  intro secs
  induction secs with
  | nil => intro l i t s _; rfl
  | cons s' secs ih =>
    intro l i t s hne
    simp only [updateTags]
    by_cases h1 : l = startTag s'
    · rw [if_pos h1]
      show (if s = s' then (some i, (t s).2) else t s).2 = (t s).2
      split <;> rfl
    · rw [if_neg h1]
      by_cases h2 : l = endTag s'
      · rw [if_pos h2]
        have hss : s ≠ s' := fun he => hne (he ▸ h2)
        show (if s = s' then ((t s).1, some i) else t s).2 = (t s).2
        rw [if_neg hss]
      · rw [if_neg h2]
        exact ih l i t s hne

/-- A line equal to a start sentinel updates exactly that section's start
index: the first match terminates the per-line classification. -/
lemma updateTags_hit_start (s : SectionKind) (i : Nat) (t : Tags) :
    updateTags (startTag s) i sections t = Tags.setStart s i t := by
  cases s <;> simp [sections, updateTags, startTag, endTag, sectionName]

/-- A line equal to an end sentinel updates exactly that section's end
index. -/
lemma updateTags_hit_end (s : SectionKind) (i : Nat) (t : Tags) :
    updateTags (endTag s) i sections t = Tags.setEnd s i t := by
  cases s <;> simp [sections, updateTags, startTag, endTag, sectionName]

lemma tagScan_start_spec : ∀ (ls : List String) (i : Nat) (t : Tags)
    (s : SectionKind) (j : Nat), ((tagScan ls i t) s).1 = some j →
    ((t s).1 = some j ∧ ∀ k : Nat, ls[k]? ≠ some (startTag s)) ∨
    (i ≤ j ∧ ls[j - i]? = some (startTag s) ∧
      ∀ k : Nat, j - i < k → ls[k]? ≠ some (startTag s)) := by
  intro ls
  induction ls with
  | nil =>
    intro i t s j h
    exact Or.inl ⟨h, fun k => by simp⟩
  | cons l ls ih =>
    intro i t s j h
    rw [show tagScan (l :: ls) i t = tagScan ls (i + 1) (updateTags l i sections t)
      from rfl] at h
    rcases ih (i + 1) (updateTags l i sections t) s j h with ⟨h1, h2⟩ | ⟨h1, h2, h3⟩
    · by_cases hl : l = startTag s
      · have hset : ((updateTags l i sections t) s).1 = some i := by
          rw [hl, updateTags_hit_start]
          show (if s = s then (some i, (t s).2) else t s).1 = some i
          rw [if_pos rfl]
        have hj : j = i := by
          rw [hset] at h1; exact (Option.some.inj h1).symm
        subst hj
        refine Or.inr ⟨Nat.le_refl j, ?_, ?_⟩
        · rw [Nat.sub_self]
          simp [hl]
        · intro k hk
          match k, hk with
          | k + 1, _ => rw [List.getElem?_cons_succ]; exact h2 k
      · refine Or.inl ⟨?_, ?_⟩
        · rwa [updateTags_keep_start sections l i t s hl] at h1
        · intro k
          cases k with
          | zero => simpa using fun he => hl he
          | succ k => rw [List.getElem?_cons_succ]; exact h2 k
    · refine Or.inr ⟨Nat.le_of_succ_le h1, ?_, ?_⟩
      · rw [show j - i = (j - (i + 1)) + 1 by omega, List.getElem?_cons_succ]
        exact h2
      · intro k hk
        match k with
        | 0 => omega
        | k + 1 =>
          rw [List.getElem?_cons_succ]
          exact h3 k (by omega)

lemma tagScan_end_spec : ∀ (ls : List String) (i : Nat) (t : Tags)
    (s : SectionKind) (j : Nat), ((tagScan ls i t) s).2 = some j →
    ((t s).2 = some j ∧ ∀ k : Nat, ls[k]? ≠ some (endTag s)) ∨
    (i ≤ j ∧ ls[j - i]? = some (endTag s) ∧
      ∀ k : Nat, j - i < k → ls[k]? ≠ some (endTag s)) := by
  intro ls
  induction ls with
  | nil =>
    intro i t s j h
    exact Or.inl ⟨h, fun k => by simp⟩
  | cons l ls ih =>
    intro i t s j h
    rw [show tagScan (l :: ls) i t = tagScan ls (i + 1) (updateTags l i sections t)
      from rfl] at h
    rcases ih (i + 1) (updateTags l i sections t) s j h with ⟨h1, h2⟩ | ⟨h1, h2, h3⟩
    · by_cases hl : l = endTag s
      · have hset : ((updateTags l i sections t) s).2 = some i := by
          rw [hl, updateTags_hit_end]
          show (if s = s then ((t s).1, some i) else t s).2 = some i
          rw [if_pos rfl]
        have hj : j = i := by
          rw [hset] at h1; exact (Option.some.inj h1).symm
        subst hj
        refine Or.inr ⟨Nat.le_refl j, ?_, ?_⟩
        · rw [Nat.sub_self]
          simp [hl]
        · intro k hk
          match k, hk with
          | k + 1, _ => rw [List.getElem?_cons_succ]; exact h2 k
      · refine Or.inl ⟨?_, ?_⟩
        · rwa [updateTags_keep_end sections l i t s hl] at h1
        · intro k
          cases k with
          | zero => simpa using fun he => hl he
          | succ k => rw [List.getElem?_cons_succ]; exact h2 k
    · refine Or.inr ⟨Nat.le_of_succ_le h1, ?_, ?_⟩
      · rw [show j - i = (j - (i + 1)) + 1 by omega, List.getElem?_cons_succ]
        exact h2
      · intro k hk
        match k with
        | 0 => omega
        | k + 1 =>
          rw [List.getElem?_cons_succ]
          exact h3 k (by omega)

/-- Counterexample to claim C3 as stated: with two identical start
sentinels the validator records index 1 — the last occurrence — although
the first line matching the sentinel is at index 0.  The assignment
`section_tags[section] = (i, ...)` overwrites on every later match. -/
theorem validator_first_wins_counterexample :
    (tagsOf ["#@start User_Alias", "#@start User_Alias"]
      SectionKind.userAlias).1 = some 1 ∧
    ["#@start User_Alias", "#@start User_Alias"][0]? =
      some (startTag SectionKind.userAlias) := by
  decide

/-- Claim C3 (amended): the index recorded by the validator for a section's
start (and likewise end) sentinel is the index of the last line of the text
equal to that sentinel — later occurrences overwrite earlier ones — and a
line matching one section's sentinel performs exactly that section's update
and is not tested against any later section on the same pass. -/
theorem validator_records_last :
    (∀ (lines : List String) (s : SectionKind) (j : Nat),
      (tagsOf lines s).1 = some j →
      lines[j]? = some (startTag s) ∧
        ∀ k : Nat, j < k → lines[k]? ≠ some (startTag s)) ∧
    (∀ (lines : List String) (s : SectionKind) (j : Nat),
      (tagsOf lines s).2 = some j →
      lines[j]? = some (endTag s) ∧
        ∀ k : Nat, j < k → lines[k]? ≠ some (endTag s)) ∧
    (∀ (s : SectionKind) (i : Nat) (t : Tags),
      updateTags (startTag s) i sections t = Tags.setStart s i t ∧
      updateTags (endTag s) i sections t = Tags.setEnd s i t) := by
  refine ⟨?_, ?_, fun s i t =>
    ⟨updateTags_hit_start s i t, updateTags_hit_end s i t⟩⟩
  · intro lines s j h
    rcases tagScan_start_spec lines 0 initTags s j h with ⟨h1, _⟩ | ⟨_, h2, h3⟩
    · exact absurd h1 (by simp [initTags])
    · rw [Nat.sub_zero] at h2
      exact ⟨h2, fun k hk => h3 k (by omega)⟩
  · intro lines s j h
    rcases tagScan_end_spec lines 0 initTags s j h with ⟨h1, _⟩ | ⟨_, h2, h3⟩
    · exact absurd h1 (by simp [initTags])
    · rw [Nat.sub_zero] at h2
      exact ⟨h2, fun k hk => h3 k (by omega)⟩

/-- Witness for `validator_records_last` on a one-line document. -/
theorem validator_records_last_witness :
    (["#@start User_Alias"] : List String)[0]? =
      some (startTag SectionKind.userAlias) :=
  (validator_records_last.1 ["#@start User_Alias"] SectionKind.userAlias 0
    (by decide)).1

/-! ## Claim C10: sentinel recognition asymmetry -/

lemma extension_skips (tag l : String)
    (hpre : pyStartswith l tag = true) (hne : l ≠ tag)
    (hfacts : ∀ s' ∈ sections,
      (tag = startTag s' ∨ listIsPre tag.data (startTag s').data = false) ∧
      (tag = endTag s' ∨ listIsPre tag.data (endTag s').data = false)) :
    ∀ (i : Nat) (t : Tags), updateTags l i sections t = t := by
  intro i t
  obtain ⟨r, hr⟩ := listIsPre_exists_suffix tag.data l.data hpre
  have hl : l = String.mk (tag.data ++ r) := String.ext hr
  apply updateTags_skip
  intro s' hs'
  obtain ⟨hst, hen⟩ := hfacts s' hs'
  constructor
  · rcases hst with h | h
    · rw [← h]; exact hne
    · rw [hl]; exact append_ne_of_not_pre tag (startTag s') r h
  · rcases hen with h | h
    · rw [← h]; exact hne
    · rw [hl]; exact append_ne_of_not_pre tag (endTag s') r h

/-- Claim C10: the validator recognizes sentinels only by whole-line
equality, so a line that strictly extends a start or end sentinel records
nothing at all; whereas the conforming reader matches by leading segment
and does treat such a line as the section's boundary (start scan stops on
it; rule collection ends on it). -/
theorem sentinel_recognition_asymmetry :
    (∀ (s : SectionKind) (l : String),
      pyStartswith l (startTag s) = true → l ≠ startTag s →
      (∀ (i : Nat) (t : Tags), updateTags l i sections t = t) ∧
      (∀ rest : List String, scanStart (sectionName s) (l :: rest) = some rest)) ∧
    (∀ (s : SectionKind) (l : String),
      pyStartswith l (endTag s) = true → l ≠ endTag s →
      (∀ (i : Nat) (t : Tags), updateTags l i sections t = t) ∧
      (∀ (acc rest : List String),
        collectRules (sectionName s) acc (l :: rest) = some (acc, l :: rest))) := by
  constructor
  · intro s l hpre hne
    refine ⟨extension_skips (startTag s) l hpre hne ?_, fun rest => ?_⟩
    · cases s <;> decide
    · have hc : pyStartswith l ("#@start " ++ sectionName s) = true := hpre
      simp [scanStart, hc]
  · intro s l hpre hne
    refine ⟨extension_skips (endTag s) l hpre hne ?_, fun acc rest => ?_⟩
    · cases s <;> decide
    · have hc : pyStartswith l ("#@end " ++ sectionName s) = true := hpre
      simp [collectRules, hc]

/-- Witness for `sentinel_recognition_asymmetry` on a sentinel line with
trailing text. -/
theorem sentinel_recognition_asymmetry_witness :
    updateTags "#@start User_Alias extra" 0 sections initTags = initTags :=
  ((sentinel_recognition_asymmetry.1 SectionKind.userAlias
    "#@start User_Alias extra" (by decide) (by decide)).1 0 initTags)

/-! ## Claim C7: invariant of the rules produced by the readers -/

lemma emptyRules_get (s : SectionKind) : emptyRules.get s = [] := by
  cases s <;> rfl

lemma collectRules_mem : ∀ (L : List String) (sec : String)
    (acc out rest : List String), collectRules sec acc L = some (out, rest) →
    ∀ r ∈ out, r ∈ acc ∨ (r ≠ "" ∧ pyStartswith (pyStrip r) "#" = false) := by
  intro L
  induction L with
  | nil =>
    intro sec acc out rest h
    exact absurd h (by simp [collectRules])
  | cons l ls ih =>
    intro sec acc out rest h
    simp only [collectRules] at h
    by_cases h1 : pyStartswith l ("#@end " ++ sec) = true
    · rw [if_pos h1] at h
      obtain ⟨ho, _⟩ := Prod.mk.injEq .. ▸ Option.some.inj h
      intro r hr
      exact Or.inl (ho ▸ hr)
    · rw [if_neg h1] at h
      by_cases h2 : (!(l == "") && !(pyStartswith (pyStrip l) "#")) = true
      · rw [if_pos h2] at h
        intro r hr
        rcases ih sec (acc ++ [l]) out rest h r hr with hacc | hgood
        · rcases List.mem_append.mp hacc with hm | hm
          · exact Or.inl hm
          · right
            obtain ⟨hA, hB⟩ := Bool.and_eq_true .. |>.mp h2
            have hrl : r = l := List.mem_singleton.mp hm
            subst hrl
            constructor
            · intro h0
              rw [h0] at hA
              simp at hA
            · simpa using hB
        · exact Or.inr hgood
      · rw [if_neg h2] at h
        exact ih sec acc out rest h

lemma getRulesLoop_mem : ∀ (secs : List SectionKind) (L : List String)
    (r0 R : Rules), getRulesLoop secs L r0 = some R →
    ∀ (s : SectionKind), ∀ x ∈ R.get s,
      x ∈ r0.get s ∨ (x ≠ "" ∧ pyStartswith (pyStrip x) "#" = false) := by
  intro secs
  induction secs with
  | nil =>
    intro L r0 R h s x hx
    exact Or.inl ((Option.some.inj h) ▸ hx)
  | cons sc secs ih =>
    intro L r0 R h s x hx
    simp only [getRulesLoop] at h
    cases hrs : readSection (sectionName sc) L with
    | none => rw [hrs] at h; exact absurd h (by simp)
    | some p =>
      obtain ⟨out, rest⟩ := p
      rw [hrs] at h
      rcases ih rest (r0.set sc out) R h s x hx with hmem | hgood
      · rw [Rules.get_set] at hmem
        by_cases hss : s = sc
        · rw [if_pos hss] at hmem
          simp only [readSection] at hrs
          cases hscan : scanStart (sectionName sc) L with
          | none => rw [hscan] at hrs; exact absurd hrs (by simp)
          | some rest1 =>
            rw [hscan] at hrs
            rcases collectRules_mem rest1 (sectionName sc) [] out rest hrs x hmem
              with hnil | hgood
            · exact absurd hnil (by simp)
            · exact Or.inr hgood
        · rw [if_neg hss] at hmem
          exact Or.inl hmem
      · exact Or.inr hgood

lemma classifyFold_mem : ∀ (raw : List String) (acc : Rules) (s : SectionKind),
    ∀ x ∈ (raw.foldl (fun acc rule =>
        acc.set (classifyLine rule) (acc.get (classifyLine rule) ++ [rule]))
        acc).get s,
      x ∈ acc.get s ∨ x ∈ raw := by
  intro raw
  induction raw with
  | nil => intro acc s x hx; exact Or.inl hx
  | cons rule raw ih =>
    intro acc s x hx
    rw [List.foldl_cons] at hx
    rcases ih _ s x hx with hmem | hmem
    · rw [Rules.get_set] at hmem
      by_cases hss : s = classifyLine rule
      · rw [if_pos hss] at hmem
        rcases List.mem_append.mp hmem with hm | hm
        · exact Or.inl (hss ▸ hm)
        · exact Or.inr (by simp [List.mem_singleton.mp hm])
      · rw [if_neg hss] at hmem
        exact Or.inl hmem
    · exact Or.inr (by simp [hmem])

/-- Claim C7 (amended): every rule string produced by the readers is
non-empty and its trimmed text does not start with `#`; but rules are
appended raw, so leading and trailing whitespace is preserved (the claim's
"no leading or trailing whitespace" does not hold). -/
theorem reader_rule_invariant :
    (∀ (lines : List String) (R : Rules), get_rules_from_file lines = some R →
      ∀ (s : SectionKind), ∀ r ∈ R.get s,
        r ≠ "" ∧ pyStartswith (pyStrip r) "#" = false) ∧
    (∀ (lines : List String) (s : SectionKind),
      ∀ r ∈ (get_rules_from_nonconforming_file lines).get s,
        r ≠ "" ∧ pyStartswith (pyStrip r) "#" = false) := by
  constructor
  · intro lines R h s r hr
    rcases getRulesLoop_mem sections lines emptyRules R h s r hr with hm | hg
    · rw [emptyRules_get] at hm
      exact absurd hm (by simp)
    · exact hg
  · intro lines s r hr
    simp only [get_rules_from_nonconforming_file] at hr
    rcases classifyFold_mem _ emptyRules s r hr with hm | hm
    · rw [emptyRules_get] at hm
      exact absurd hm (by simp)
    · obtain ⟨_, hguard⟩ := List.mem_filter.mp hm
      obtain ⟨hA, hB⟩ := Bool.and_eq_true .. |>.mp hguard
      constructor
      · intro h0
        rw [h0] at hA
        simp at hA
      · simpa using hB

/-- Witness for `reader_rule_invariant` on a minimal conforming document. -/
theorem reader_rule_invariant_witness :
    "alice ALL" ≠ "" ∧ pyStartswith (pyStrip "alice ALL") "#" = false :=
  reader_rule_invariant.1
    ["#@start User_Alias", "alice ALL", "#@end User_Alias",
     "#@start Runas_Alias", "#@end Runas_Alias", "#@start Host_Alias",
     "#@end Host_Alias", "#@start Cmnd_Alias", "#@end Cmnd_Alias",
     "#@start Defaults", "#@end Defaults", "#@start User_Rule",
     "#@end User_Rule"]
    ⟨["alice ALL"], [], [], [], [], []⟩ (by decide)
    SectionKind.userAlias "alice ALL" (by decide)

/-- Counterexample to claim C7 as stated: an indented rule line inside a
conforming document is returned with its leading whitespace intact. -/
theorem reader_trimmed_counterexample :
    get_rules_from_file
      ["#@start User_Alias", "  alice ALL", "#@end User_Alias",
       "#@start Runas_Alias", "#@end Runas_Alias", "#@start Host_Alias",
       "#@end Host_Alias", "#@start Cmnd_Alias", "#@end Cmnd_Alias",
       "#@start Defaults", "#@end Defaults", "#@start User_Rule",
       "#@end User_Rule"] =
      some ⟨["  alice ALL"], [], [], [], [], []⟩ ∧
    pyStrip "  alice ALL" ≠ "  alice ALL" := by
  decide

/-! ## Claim C1: template round-trip -/

lemma scanStart_skip (pre : List String) (sec : String) (rest : List String)
    (h : ∀ l ∈ pre, pyStartswith l ("#@start " ++ sec) = false) :
    scanStart sec (pre ++ rest) = scanStart sec rest := by
  induction pre with
  | nil => rfl
  | cons l pre ih =>
    rw [List.cons_append]
    simp only [scanStart]
    rw [if_neg (by simp [h l (by simp)])]
    exact ih (fun x hx => h x (by simp [hx]))

lemma scanStart_found (sec : String) (rest : List String) :
    scanStart sec (("#@start " ++ sec) :: rest) = some rest := by
  simp only [scanStart]
  rw [if_pos (pyStartswith_self _)]

lemma pyStartswith_hash_append (p sec : String)
    (hp : listIsPre "#".data p.data = true) :
    pyStartswith (p ++ sec) "#" = true := by
  unfold pyStartswith
  rw [String.data_append]
  exact listIsPre_trans "#".data p.data (p.data ++ sec.data) hp
    (listIsPre_append_right _ _)

lemma collectRules_rules : ∀ (rs : List String) (sec : String)
    (acc rest : List String),
    (∀ r ∈ rs, r ≠ "" ∧ pyStrip r = r ∧ pyStartswith (pyStrip r) "#" = false) →
    collectRules sec acc (rs ++ ("#@end " ++ sec) :: rest) =
      some (acc ++ rs, ("#@end " ++ sec) :: rest) := by
  intro rs
  induction rs with
  | nil =>
    intro sec acc rest _
    rw [List.nil_append]
    simp only [collectRules]
    rw [if_pos (pyStartswith_self _)]
    simp
  | cons r rs ih =>
    intro sec acc rest h
    obtain ⟨hne, hst, hcm⟩ := h r (by simp)
    have hhash : pyStartswith r "#" = false := by rw [← hst]; exact hcm
    have hend : pyStartswith r ("#@end " ++ sec) = false := by
      cases htest : pyStartswith r ("#@end " ++ sec) with
      | false => rfl
      | true =>
        have hh : pyStartswith r "#" = true :=
          pyStartswith_trans r ("#@end " ++ sec) "#" htest
            (pyStartswith_hash_append "#@end " sec (by decide))
        rw [hhash] at hh
        exact absurd hh (by simp)
    rw [List.cons_append]
    simp only [collectRules]
    rw [if_neg (by simp [hend]), if_pos (by simp [hne, hcm])]
    rw [ih sec (acc ++ [r]) rest (fun x hx => h x (by simp [hx]))]
    simp

/-- No line of any comment block begins any section's start sentinel. -/
lemma comment_no_start : ∀ s' ∈ sections, ∀ s ∈ sections,
    ∀ l ∈ commentLines s',
    pyStartswith l ("#@start " ++ sectionName s) = false := by decide

/-- No end sentinel begins any section's start sentinel. -/
lemma end_no_start : ∀ s' ∈ sections, ∀ s ∈ sections,
    pyStartswith ("#@end " ++ sectionName s')
      ("#@start " ++ sectionName s) = false := by decide

/-- No header line begins any section's start sentinel. -/
lemma headerLines_no_start : ∀ l ∈ headerLines, ∀ s ∈ sections,
    pyStartswith l ("#@start " ++ sectionName s) = false := by decide

lemma getRulesLoop_clean : ∀ (secs : List SectionKind),
    (∀ s ∈ secs, s ∈ sections) →
    ∀ (junk : List String) (r acc : Rules),
    (∀ s ∈ secs, ∀ x ∈ r.get s,
      x ≠ "" ∧ pyStrip x = x ∧ pyStartswith (pyStrip x) "#" = false) →
    (∀ l ∈ junk, ∀ s ∈ secs,
      pyStartswith l ("#@start " ++ sectionName s) = false) →
    getRulesLoop secs (junk ++ secs.flatMap (sectionBlock r)) acc =
      some (secs.foldl (fun a s => a.set s (r.get s)) acc) := by
  intro secs
  induction secs with
  | nil => intro _ junk r acc _ _; simp [getRulesLoop]
  | cons sc secs ih =>
    intro hsub junk r acc hgood hjunk
    have hscIn : sc ∈ sections := hsub sc (by simp)
    have hL : junk ++ (sc :: secs).flatMap (sectionBlock r) =
        (junk ++ commentLines sc) ++ ("#@start " ++ sectionName sc) ::
          (r.get sc ++ ("#@end " ++ sectionName sc) ::
            secs.flatMap (sectionBlock r)) := by
      simp [sectionBlock, startTag, endTag, List.append_assoc]
    rw [hL]
    have hpre : ∀ l ∈ junk ++ commentLines sc,
        pyStartswith l ("#@start " ++ sectionName sc) = false := by
      intro l hl
      rcases List.mem_append.mp hl with hm | hm
      · exact hjunk l hm sc (by simp)
      · exact comment_no_start sc hscIn sc hscIn l hm
    have hread : readSection (sectionName sc)
        ((junk ++ commentLines sc) ++ ("#@start " ++ sectionName sc) ::
          (r.get sc ++ ("#@end " ++ sectionName sc) ::
            secs.flatMap (sectionBlock r))) =
        some (r.get sc, ("#@end " ++ sectionName sc) ::
          secs.flatMap (sectionBlock r)) := by
      unfold readSection
      rw [scanStart_skip _ _ _ hpre, scanStart_found]
      show collectRules (sectionName sc) []
        (r.get sc ++ ("#@end " ++ sectionName sc) ::
          secs.flatMap (sectionBlock r)) = _
      rw [collectRules_rules _ _ _ _ (hgood sc (by simp))]
      simp
    simp only [getRulesLoop, hread, List.foldl_cons]
    have step := ih (fun s hs => hsub s (by simp [hs]))
      [("#@end " ++ sectionName sc)] r (acc.set sc (r.get sc))
      (fun s hs => hgood s (by simp [hs]))
      (fun l hl s hs => by
        rw [List.mem_singleton.mp hl]
        exact end_no_start sc hscIn s (hsub s (by simp [hs])))
    simpa using step

lemma setAll_eq (r acc : Rules) :
    sections.foldl (fun a s => a.set s (r.get s)) acc = r := by
  cases r
  cases acc
  simp [sections, Rules.set, Rules.get]

/-- Claim C1: synthesizing a fresh document from the template with a rules
document whose rules are non-empty, pairwise distinct within each section,
trimmed, and not comment lines, and then reading it back in conforming
mode, yields exactly the same rules document. -/
theorem template_roundtrip (D : Rules)
    (hgood : ∀ s : SectionKind, ∀ r ∈ D.get s,
      r ≠ "" ∧ pyStrip r = r ∧ pyStartswith (pyStrip r) "#" = false)
    (hnodup : ∀ s : SectionKind, (D.get s).Nodup) :
    get_rules_from_file (build_clean_from_template D) = some D := by
  unfold get_rules_from_file build_clean_from_template
  rw [getRulesLoop_clean sections (fun s _ => mem_sections s) headerLines D
    emptyRules (fun s _ => hgood s)
    (fun l hl s _ => headerLines_no_start l hl s (mem_sections s))]
  rw [setAll_eq]

/-- Witness for `template_roundtrip` with one rule in every section. -/
theorem template_roundtrip_witness :
    get_rules_from_file (build_clean_from_template
      ⟨["User_Alias ADMINS = alice"], ["Runas_Alias OP = root"],
       ["Host_Alias LAB = host1"], ["Cmnd_Alias SH = /bin/sh"],
       ["Defaults env_reset"], ["alice ALL = (ALL) ALL"]⟩) =
      some ⟨["User_Alias ADMINS = alice"], ["Runas_Alias OP = root"],
       ["Host_Alias LAB = host1"], ["Cmnd_Alias SH = /bin/sh"],
       ["Defaults env_reset"], ["alice ALL = (ALL) ALL"]⟩ :=
  template_roundtrip _ (by intro s; cases s <;> decide)
    (by intro s; cases s <;> decide)

/-! ## Claim C2: validator success makes the conforming reader total -/

lemma pattern_sublist : ∀ (ps : List (String × Nat)) (lines : List String)
    (k : Nat), List.Pairwise (fun a b => a.2 < b.2) ps →
    (∀ p ∈ ps, k ≤ p.2) → (∀ p ∈ ps, lines[p.2]? = some p.1) →
    List.Sublist (ps.map Prod.fst) (lines.drop k) := by
  intro ps
  induction ps with
  | nil => intro lines k _ _ _; simp
  | cons a ps ih =>
    intro lines k hpw hk hget
    have ha := hget a (by simp)
    obtain ⟨hlen, hval⟩ := List.getElem?_eq_some.mp ha
    have hdrop : lines.drop a.2 = a.1 :: lines.drop (a.2 + 1) := by
      rw [List.drop_eq_getElem_cons hlen, hval]
    have hsub : List.Sublist (ps.map Prod.fst) (lines.drop (a.2 + 1)) :=
      ih lines (a.2 + 1)
        (List.pairwise_cons.mp hpw).2
        (fun p hp => (List.pairwise_cons.mp hpw).1 p hp)
        (fun p hp => hget p (by simp [hp]))
    have hcons : List.Sublist (a.1 :: ps.map Prod.fst) (lines.drop a.2) := by
      rw [hdrop]
      exact List.Sublist.cons₂ _ hsub
    have hka := hk a (by simp)
    exact List.Sublist.trans hcons (List.drop_sublist_drop_left lines hka)

lemma scanStart_of_sublist : ∀ (L : List String) (sec : String)
    (pat : List String), List.Sublist (("#@start " ++ sec) :: pat) L →
    ∃ rest, scanStart sec L = some rest ∧ List.Sublist pat rest := by
  intro L
  induction L with
  | nil => intro sec pat h; exact absurd h (by simp)
  | cons l ls ih =>
    intro sec pat h
    by_cases hl : pyStartswith l ("#@start " ++ sec) = true
    · refine ⟨ls, ?_, ?_⟩
      · simp only [scanStart]; rw [if_pos hl]
      · cases h with
        | cons _ h' => exact (List.sublist_cons_self _ _).trans h'
        | cons₂ _ h' => exact h'
    · have hlne : l ≠ "#@start " ++ sec := by
        intro he; rw [he] at hl; exact hl (pyStartswith_self _)
      cases h with
      | cons _ h' =>
        obtain ⟨rest, h1, h2⟩ := ih sec pat h'
        refine ⟨rest, ?_, h2⟩
        simp only [scanStart]
        rw [if_neg hl, h1]
      | cons₂ _ h' => exact absurd rfl hlne

lemma collectRules_of_sublist : ∀ (L : List String) (sec : String)
    (acc pat : List String), List.Sublist (("#@end " ++ sec) :: pat) L →
    ∃ out rest, collectRules sec acc L = some (out, rest) ∧
      List.Sublist pat rest := by
  intro L
  induction L with
  | nil => intro sec acc pat h; exact absurd h (by simp)
  | cons l ls ih =>
    intro sec acc pat h
    by_cases hl : pyStartswith l ("#@end " ++ sec) = true
    · refine ⟨acc, l :: ls, ?_, ?_⟩
      · simp only [collectRules]; rw [if_pos hl]
      · cases h with
        | cons _ h' =>
          exact ((List.sublist_cons_self _ _).trans h').cons l
        | cons₂ _ h' => exact h'.cons _
    · have hlne : l ≠ "#@end " ++ sec := by
        intro he; rw [he] at hl; exact hl (pyStartswith_self _)
      cases h with
      | cons _ h' =>
        by_cases hk : (!(l == "") && !(pyStartswith (pyStrip l) "#")) = true
        · obtain ⟨out, rest, h1, h2⟩ := ih sec (acc ++ [l]) pat h'
          refine ⟨out, rest, ?_, h2⟩
          simp only [collectRules]
          rw [if_neg hl, if_pos hk, h1]
        · obtain ⟨out, rest, h1, h2⟩ := ih sec acc pat h'
          refine ⟨out, rest, ?_, h2⟩
          simp only [collectRules]
          rw [if_neg hl, if_neg hk, h1]
      | cons₂ _ h' => exact absurd rfl hlne

lemma getRulesLoop_of_pattern : ∀ (secs : List SectionKind) (L : List String)
    (r : Rules),
    List.Sublist (secs.flatMap (fun s =>
      ["#@start " ++ sectionName s, "#@end " ++ sectionName s])) L →
    ∃ R, getRulesLoop secs L r = some R := by
  intro secs
  induction secs with
  | nil => intro L r _; exact ⟨r, rfl⟩
  | cons sc secs ih =>
    intro L r h
    rw [List.flatMap_cons, List.cons_append, List.cons_append,
      List.nil_append] at h
    obtain ⟨rest1, hscan, hsub1⟩ := scanStart_of_sublist L (sectionName sc) _ h
    obtain ⟨out, rest2, hcol, hsub2⟩ :=
      collectRules_of_sublist rest1 (sectionName sc) [] _ hsub1
    obtain ⟨R, hR⟩ := ih rest2 (r.set sc out) hsub2
    refine ⟨R, ?_⟩
    simp only [getRulesLoop, readSection, hscan, hcol, hR]

lemma tagsOf_start_points (lines : List String) (s : SectionKind) (j : Nat)
    (h : (tagsOf lines s).1 = some j) :
    lines[j]? = some ("#@start " ++ sectionName s) := by
  rcases tagScan_start_spec lines 0 initTags s j h with ⟨h1, _⟩ | ⟨_, h2, _⟩
  · exact absurd h1 (by simp [initTags])
  · rwa [Nat.sub_zero] at h2

lemma tagsOf_end_points (lines : List String) (s : SectionKind) (j : Nat)
    (h : (tagsOf lines s).2 = some j) :
    lines[j]? = some ("#@end " ++ sectionName s) := by
  rcases tagScan_end_spec lines 0 initTags s j h with ⟨h1, _⟩ | ⟨_, h2, _⟩
  · exact absurd h1 (by simp [initTags])
  · rwa [Nat.sub_zero] at h2

/-- Claim C2: on every text accepted by `validate`, the conforming reader
finds every sentinel it scans for before the lines run out and returns a
rules document normally — its missing-sentinel failure is unreachable. -/
theorem validate_reader_total (lines : List String)
    (h : validate lines = true) :
    (get_rules_from_file lines).isSome = true := by
  unfold validate at h
  obtain ⟨hall, hord⟩ := Bool.and_eq_true .. |>.mp h
  rw [allTags] at hall
  have hAll := List.all_eq_true.mp hall
  have hua := Bool.and_eq_true .. |>.mp (hAll SectionKind.userAlias (by decide))
  have hra := Bool.and_eq_true .. |>.mp (hAll SectionKind.runasAlias (by decide))
  have hha := Bool.and_eq_true .. |>.mp (hAll SectionKind.hostAlias (by decide))
  have hca := Bool.and_eq_true .. |>.mp (hAll SectionKind.cmndAlias (by decide))
  have hdf := Bool.and_eq_true .. |>.mp (hAll SectionKind.defaults (by decide))
  have hur := Bool.and_eq_true .. |>.mp (hAll SectionKind.userRule (by decide))
  obtain ⟨st1, hst1⟩ := Option.isSome_iff_exists.mp hua.1
  obtain ⟨en1, hen1⟩ := Option.isSome_iff_exists.mp hua.2
  obtain ⟨st2, hst2⟩ := Option.isSome_iff_exists.mp hra.1
  obtain ⟨en2, hen2⟩ := Option.isSome_iff_exists.mp hra.2
  obtain ⟨st3, hst3⟩ := Option.isSome_iff_exists.mp hha.1
  obtain ⟨en3, hen3⟩ := Option.isSome_iff_exists.mp hha.2
  obtain ⟨st4, hst4⟩ := Option.isSome_iff_exists.mp hca.1
  obtain ⟨en4, hen4⟩ := Option.isSome_iff_exists.mp hca.2
  obtain ⟨st5, hst5⟩ := Option.isSome_iff_exists.mp hdf.1
  obtain ⟨en5, hen5⟩ := Option.isSome_iff_exists.mp hdf.2
  obtain ⟨st6, hst6⟩ := Option.isSome_iff_exists.mp hur.1
  obtain ⟨en6, hen6⟩ := Option.isSome_iff_exists.mp hur.2
  simp only [sections, checkOrder, hst1, hen1, hst2, hen2, hst3, hen3, hst4,
    hen4, hst5, hen5, hst6, hen6, Option.getD_some] at hord
  simp only [Bool.and_eq_true, Bool.not_eq_true', Bool.and_eq_false_iff,
    decide_eq_false_iff_not, decide_eq_true_eq, not_le, ne_eq,
    Decidable.not_not] at hord
  have hpairs : List.Sublist (([("#@start " ++ sectionName SectionKind.userAlias, st1),
      ("#@end " ++ sectionName SectionKind.userAlias, en1),
      ("#@start " ++ sectionName SectionKind.runasAlias, st2),
      ("#@end " ++ sectionName SectionKind.runasAlias, en2),
      ("#@start " ++ sectionName SectionKind.hostAlias, st3),
      ("#@end " ++ sectionName SectionKind.hostAlias, en3),
      ("#@start " ++ sectionName SectionKind.cmndAlias, st4),
      ("#@end " ++ sectionName SectionKind.cmndAlias, en4),
      ("#@start " ++ sectionName SectionKind.defaults, st5),
      ("#@end " ++ sectionName SectionKind.defaults, en5),
      ("#@start " ++ sectionName SectionKind.userRule, st6),
      ("#@end " ++ sectionName SectionKind.userRule, en6)] :
        List (String × Nat)).map Prod.fst) (lines.drop 0) := by
    apply pattern_sublist
    · haveI : IsTrans (String × Nat) (fun a b => a.2 < b.2) :=
        ⟨fun _ _ _ h1 h2 => Nat.lt_trans h1 h2⟩
      rw [← List.chain'_iff_pairwise]
      simp only [List.chain'_cons, List.chain'_singleton, and_true]
      refine ⟨?_, ?_, ?_, ?_, ?_, ?_, ?_, ?_, ?_, ?_, ?_⟩ <;> omega
    · intro p _; exact Nat.zero_le _
    · intro p hp
      simp only [List.mem_cons, List.not_mem_nil, or_false] at hp
      rcases hp with rfl | rfl | rfl | rfl | rfl | rfl | rfl | rfl | rfl |
        rfl | rfl | rfl
      · exact tagsOf_start_points lines _ _ hst1
      · exact tagsOf_end_points lines _ _ hen1
      · exact tagsOf_start_points lines _ _ hst2
      · exact tagsOf_end_points lines _ _ hen2
      · exact tagsOf_start_points lines _ _ hst3
      · exact tagsOf_end_points lines _ _ hen3
      · exact tagsOf_start_points lines _ _ hst4
      · exact tagsOf_end_points lines _ _ hen4
      · exact tagsOf_start_points lines _ _ hst5
      · exact tagsOf_end_points lines _ _ hen5
      · exact tagsOf_start_points lines _ _ hst6
      · exact tagsOf_end_points lines _ _ hen6
  rw [List.drop_zero] at hpairs
  have heq : ([("#@start " ++ sectionName SectionKind.userAlias, st1),
      ("#@end " ++ sectionName SectionKind.userAlias, en1),
      ("#@start " ++ sectionName SectionKind.runasAlias, st2),
      ("#@end " ++ sectionName SectionKind.runasAlias, en2),
      ("#@start " ++ sectionName SectionKind.hostAlias, st3),
      ("#@end " ++ sectionName SectionKind.hostAlias, en3),
      ("#@start " ++ sectionName SectionKind.cmndAlias, st4),
      ("#@end " ++ sectionName SectionKind.cmndAlias, en4),
      ("#@start " ++ sectionName SectionKind.defaults, st5),
      ("#@end " ++ sectionName SectionKind.defaults, en5),
      ("#@start " ++ sectionName SectionKind.userRule, st6),
      ("#@end " ++ sectionName SectionKind.userRule, en6)] :
        List (String × Nat)).map Prod.fst =
      sections.flatMap (fun s =>
        ["#@start " ++ sectionName s, "#@end " ++ sectionName s]) := by
    simp [sections]
  rw [heq] at hpairs
  obtain ⟨R, hR⟩ := getRulesLoop_of_pattern sections lines emptyRules hpairs
  unfold get_rules_from_file
  rw [hR]
  rfl

/-- Witness for `validate_reader_total` on a minimal conforming document. -/
theorem validate_reader_total_witness :
    (get_rules_from_file
      ["#@start User_Alias", "#@end User_Alias", "#@start Runas_Alias",
       "#@end Runas_Alias", "#@start Host_Alias", "#@end Host_Alias",
       "#@start Cmnd_Alias", "#@end Cmnd_Alias", "#@start Defaults",
       "#@end Defaults", "#@start User_Rule",
       "#@end User_Rule"]).isSome = true :=
  validate_reader_total _ (by decide)

/-! ## Claim C4: the writer as a frame transformation -/

lemma writeSection_skip : ∀ (B : List String) (sec : String)
    (rs rest out tail : List String),
    (∀ l ∈ B, pyIn ("#@start " ++ sec) l = false ∧
      pyIn ("#@end " ++ sec) l = false) →
    writeSection sec rs rest = some (out, tail) →
    writeSection sec rs (B ++ rest) =
      some (B.filter keepLine ++ out, tail) := by
  intro B
  induction B with
  | nil =>
    intro sec rs rest out tail _ h2
    rw [List.nil_append, h2]
    simp
  | cons l B ih =>
    intro sec rs rest out tail hB h2
    obtain ⟨hs, he⟩ := hB l (by simp)
    rw [List.cons_append]
    simp only [writeSection]
    rw [if_neg (by simp [hs]), if_neg (by simp [he])]
    rw [ih sec rs rest out tail (fun x hx => hB x (by simp [hx])) h2]
    simp only [List.filter_cons]
    split <;> simp

lemma writeSection_body : ∀ (M : List String) (sec : String)
    (rs rest : List String),
    (∀ l ∈ M, pyIn ("#@start " ++ sec) l = false ∧
      pyIn ("#@end " ++ sec) l = false) →
    pyIn ("#@start " ++ sec) ("#@end " ++ sec) = false →
    keepLine ("#@end " ++ sec) = true →
    writeSection sec rs (M ++ ("#@end " ++ sec) :: rest) =
      some (M.filter keepLine ++ [("#@end " ++ sec)], rest) := by
  intro M
  induction M with
  | nil =>
    intro sec rs rest _ hse hke
    rw [List.nil_append]
    simp only [writeSection]
    rw [if_neg (by simp [hse]), if_pos (pyIn_refl _), if_pos hke]
    simp
  | cons m M ih =>
    intro sec rs rest hM hse hke
    obtain ⟨hs, he⟩ := hM m (by simp)
    rw [List.cons_append]
    simp only [writeSection]
    rw [if_neg (by simp [hs]), if_neg (by simp [he])]
    rw [ih sec rs rest (fun x hx => hM x (by simp [hx])) hse hke]
    simp only [List.filter_cons]
    split <;> simp

lemma writeSection_stage (sec : String) (rs : List String)
    (B M : List String)
    (hB : ∀ l ∈ B, pyIn ("#@start " ++ sec) l = false ∧
      pyIn ("#@end " ++ sec) l = false)
    (hM : ∀ l ∈ M, pyIn ("#@start " ++ sec) l = false ∧
      pyIn ("#@end " ++ sec) l = false)
    (hse : pyIn ("#@start " ++ sec) ("#@end " ++ sec) = false)
    (hke : keepLine ("#@end " ++ sec) = true)
    (hks : keepLine ("#@start " ++ sec) = true) :
    ∀ rest : List String, writeSection sec rs
      (B ++ ("#@start " ++ sec) :: M ++ ("#@end " ++ sec) :: rest) =
      some (B.filter keepLine ++ ("#@start " ++ sec) :: rs ++
        M.filter keepLine ++ [("#@end " ++ sec)], rest) := by
  intro rest
  have hinner : writeSection sec rs
      (("#@start " ++ sec) :: M ++ ("#@end " ++ sec) :: rest) =
      some (("#@start " ++ sec) :: rs ++
        M.filter keepLine ++ [("#@end " ++ sec)], rest) := by
    simp only [writeSection, List.append_eq]
    rw [if_pos (pyIn_refl _), writeSection_body M sec rs rest hM hse hke,
      if_pos hks]
    simp
  have h := writeSection_skip B sec rs _ _ _ hB hinner
  simp only [List.cons_append, List.append_assoc] at h ⊢
  exact h

/-- No line of a sentinel pair contains the other as a substring, and both
sentinel lines are comments in the writer's copy test. -/
lemma tag_facts : ∀ s ∈ sections,
    pyIn ("#@start " ++ sectionName s) ("#@end " ++ sectionName s) = false ∧
    keepLine ("#@end " ++ sectionName s) = true ∧
    keepLine ("#@start " ++ sectionName s) = true := by decide

/-- Claim C4 (amended): on a conforming document in which no line outside
the twelve sentinel lines contains a sentinel tag as a substring,
`write_rules` copies the comment and blank lines outside the sentinel pairs
line for line (before the final end sentinel), replaces each section's
payload with exactly that section's rule list emitted after the start
sentinel, keeps a section's own comment lines after the new rules, drops
non-comment lines outside the pairs, and discards everything after the
final end sentinel. -/
theorem write_rules_frame (R : Rules)
    (B0 B1 B2 B3 B4 B5 M1 M2 M3 M4 M5 M6 Z : List String)
    (hB0 : ∀ l ∈ B0, pyIn (startTag .userAlias) l = false ∧
      pyIn (endTag .userAlias) l = false)
    (hM1 : ∀ l ∈ M1, pyIn (startTag .userAlias) l = false ∧
      pyIn (endTag .userAlias) l = false)
    (hB1 : ∀ l ∈ B1, pyIn (startTag .runasAlias) l = false ∧
      pyIn (endTag .runasAlias) l = false)
    (hM2 : ∀ l ∈ M2, pyIn (startTag .runasAlias) l = false ∧
      pyIn (endTag .runasAlias) l = false)
    (hB2 : ∀ l ∈ B2, pyIn (startTag .hostAlias) l = false ∧
      pyIn (endTag .hostAlias) l = false)
    (hM3 : ∀ l ∈ M3, pyIn (startTag .hostAlias) l = false ∧
      pyIn (endTag .hostAlias) l = false)
    (hB3 : ∀ l ∈ B3, pyIn (startTag .cmndAlias) l = false ∧
      pyIn (endTag .cmndAlias) l = false)
    (hM4 : ∀ l ∈ M4, pyIn (startTag .cmndAlias) l = false ∧
      pyIn (endTag .cmndAlias) l = false)
    (hB4 : ∀ l ∈ B4, pyIn (startTag .defaults) l = false ∧
      pyIn (endTag .defaults) l = false)
    (hM5 : ∀ l ∈ M5, pyIn (startTag .defaults) l = false ∧
      pyIn (endTag .defaults) l = false)
    (hB5 : ∀ l ∈ B5, pyIn (startTag .userRule) l = false ∧
      pyIn (endTag .userRule) l = false)
    (hM6 : ∀ l ∈ M6, pyIn (startTag .userRule) l = false ∧
      pyIn (endTag .userRule) l = false) :
    write_rules R
      (B0 ++ startTag .userAlias :: M1 ++ endTag .userAlias ::
      (B1 ++ startTag .runasAlias :: M2 ++ endTag .runasAlias ::
      (B2 ++ startTag .hostAlias :: M3 ++ endTag .hostAlias ::
      (B3 ++ startTag .cmndAlias :: M4 ++ endTag .cmndAlias ::
      (B4 ++ startTag .defaults :: M5 ++ endTag .defaults ::
      (B5 ++ startTag .userRule :: M6 ++ endTag .userRule :: Z)))))) =
      some (B0.filter keepLine ++ startTag .userAlias :: R.get .userAlias ++
        M1.filter keepLine ++ endTag .userAlias ::
        (B1.filter keepLine ++ startTag .runasAlias :: R.get .runasAlias ++
        M2.filter keepLine ++ endTag .runasAlias ::
        (B2.filter keepLine ++ startTag .hostAlias :: R.get .hostAlias ++
        M3.filter keepLine ++ endTag .hostAlias ::
        (B3.filter keepLine ++ startTag .cmndAlias :: R.get .cmndAlias ++
        M4.filter keepLine ++ endTag .cmndAlias ::
        (B4.filter keepLine ++ startTag .defaults :: R.get .defaults ++
        M5.filter keepLine ++ endTag .defaults ::
        (B5.filter keepLine ++ startTag .userRule :: R.get .userRule ++
        M6.filter keepLine ++ [endTag .userRule])))))) := by
  have t1 := tag_facts SectionKind.userAlias (by decide)
  have t2 := tag_facts SectionKind.runasAlias (by decide)
  have t3 := tag_facts SectionKind.hostAlias (by decide)
  have t4 := tag_facts SectionKind.cmndAlias (by decide)
  have t5 := tag_facts SectionKind.defaults (by decide)
  have t6 := tag_facts SectionKind.userRule (by decide)
  have s1 := writeSection_stage (sectionName SectionKind.userAlias)
    (R.get SectionKind.userAlias) B0 M1 hB0 hM1 t1.1 t1.2.1 t1.2.2
  have s2 := writeSection_stage (sectionName SectionKind.runasAlias)
    (R.get SectionKind.runasAlias) B1 M2 hB1 hM2 t2.1 t2.2.1 t2.2.2
  have s3 := writeSection_stage (sectionName SectionKind.hostAlias)
    (R.get SectionKind.hostAlias) B2 M3 hB2 hM3 t3.1 t3.2.1 t3.2.2
  have s4 := writeSection_stage (sectionName SectionKind.cmndAlias)
    (R.get SectionKind.cmndAlias) B3 M4 hB3 hM4 t4.1 t4.2.1 t4.2.2
  have s5 := writeSection_stage (sectionName SectionKind.defaults)
    (R.get SectionKind.defaults) B4 M5 hB4 hM5 t5.1 t5.2.1 t5.2.2
  have s6 := writeSection_stage (sectionName SectionKind.userRule)
    (R.get SectionKind.userRule) B5 M6 hB5 hM6 t6.1 t6.2.1 t6.2.2
  simp only [startTag, endTag]
  simp only [write_rules, sections, writeLoop, s1, s2, s3, s4, s5, s6]
  simp [List.append_assoc]

/-- Witness for `write_rules_frame` on the minimal conforming document. -/
theorem write_rules_frame_witness :
    write_rules emptyRules
      ["#@start User_Alias", "#@end User_Alias", "#@start Runas_Alias",
       "#@end Runas_Alias", "#@start Host_Alias", "#@end Host_Alias",
       "#@start Cmnd_Alias", "#@end Cmnd_Alias", "#@start Defaults",
       "#@end Defaults", "#@start User_Rule", "#@end User_Rule"] =
      some ["#@start User_Alias", "#@end User_Alias", "#@start Runas_Alias",
       "#@end Runas_Alias", "#@start Host_Alias", "#@end Host_Alias",
       "#@start Cmnd_Alias", "#@end Cmnd_Alias", "#@start Defaults",
       "#@end Defaults", "#@start User_Rule", "#@end User_Rule"] := by
  have h := write_rules_frame emptyRules [] [] [] [] [] [] [] [] [] [] [] []
    []
    (fun l hl => absurd hl (List.not_mem_nil l))
    (fun l hl => absurd hl (List.not_mem_nil l))
    (fun l hl => absurd hl (List.not_mem_nil l))
    (fun l hl => absurd hl (List.not_mem_nil l))
    (fun l hl => absurd hl (List.not_mem_nil l))
    (fun l hl => absurd hl (List.not_mem_nil l))
    (fun l hl => absurd hl (List.not_mem_nil l))
    (fun l hl => absurd hl (List.not_mem_nil l))
    (fun l hl => absurd hl (List.not_mem_nil l))
    (fun l hl => absurd hl (List.not_mem_nil l))
    (fun l hl => absurd hl (List.not_mem_nil l))
    (fun l hl => absurd hl (List.not_mem_nil l))
  simpa [startTag, endTag, sectionName, emptyRules, Rules.get] using h

/-- Counterexample to claim C4 as stated: on a conforming document (the
validator accepts it) the writer discards a trailing comment after the
final end sentinel and a stray non-comment line outside every sentinel
pair, and a comment line merely containing a start sentinel as a substring
makes the section's rules be emitted twice — all three contradict "every
comment and blank line outside the pairs is preserved and only the rule
lines between sentinels change, replaced by exactly the section's list". -/
theorem write_rules_counterexample :
    validate
      ["# top", "stray rule", "#@start User_Alias",
       "# note #@start User_Alias", "#@end User_Alias",
       "#@start Runas_Alias", "#@end Runas_Alias", "#@start Host_Alias",
       "#@end Host_Alias", "#@start Cmnd_Alias", "#@end Cmnd_Alias",
       "#@start Defaults", "#@end Defaults", "#@start User_Rule",
       "#@end User_Rule", "# trailing comment"] = true ∧
    write_rules ⟨["uarule"], [], [], [], [], []⟩
      ["# top", "stray rule", "#@start User_Alias",
       "# note #@start User_Alias", "#@end User_Alias",
       "#@start Runas_Alias", "#@end Runas_Alias", "#@start Host_Alias",
       "#@end Host_Alias", "#@start Cmnd_Alias", "#@end Cmnd_Alias",
       "#@start Defaults", "#@end Defaults", "#@start User_Rule",
       "#@end User_Rule", "# trailing comment"] =
      some ["# top", "#@start User_Alias", "uarule",
       "# note #@start User_Alias", "uarule", "#@end User_Alias",
       "#@start Runas_Alias", "#@end Runas_Alias", "#@start Host_Alias",
       "#@end Host_Alias", "#@start Cmnd_Alias", "#@end Cmnd_Alias",
       "#@start Defaults", "#@end Defaults", "#@start User_Rule",
       "#@end User_Rule"] ∧
    "# trailing comment" ∉
      ["# top", "#@start User_Alias", "uarule",
       "# note #@start User_Alias", "uarule", "#@end User_Alias",
       "#@start Runas_Alias", "#@end Runas_Alias", "#@start Host_Alias",
       "#@end Host_Alias", "#@start Cmnd_Alias", "#@end Cmnd_Alias",
       "#@start Defaults", "#@end Defaults", "#@start User_Rule",
       "#@end User_Rule"] ∧
    "stray rule" ∉
      ["# top", "#@start User_Alias", "uarule",
       "# note #@start User_Alias", "uarule", "#@end User_Alias",
       "#@start Runas_Alias", "#@end Runas_Alias", "#@start Host_Alias",
       "#@end Host_Alias", "#@start Cmnd_Alias", "#@end Cmnd_Alias",
       "#@start Defaults", "#@end Defaults", "#@start User_Rule",
       "#@end User_Rule"] ∧
    List.count "uarule"
      ["# top", "#@start User_Alias", "uarule",
       "# note #@start User_Alias", "uarule", "#@end User_Alias",
       "#@start Runas_Alias", "#@end Runas_Alias", "#@start Host_Alias",
       "#@end Host_Alias", "#@start Cmnd_Alias", "#@end Cmnd_Alias",
       "#@start Defaults", "#@end Defaults", "#@start User_Rule",
       "#@end User_Rule"] = 2 := by
  decide
